import Mathlib

/-!
# EcoChef — verification of the view/state orchestration core

A shallow embedding of the EcoChef client: the ingredient roster and its
editing operations, the image-ingestion pipeline around the provider
gateway, the camera capture step, and the recipe-suggestion brief builder.
JavaScript strings are modelled as `String` (lists of characters), the
millisecond clock read by the code at each operation is passed in
explicitly as a `Nat`, and the two outbound gateway calls are modelled by
passing their outcome (`Except`) to the handler that awaits them.
-/

namespace EcoChef

/-! ## JavaScript string primitives used by the source -/

/-- Model of the JavaScript method trim: drop whitespace characters from
both ends of the string. -/
def trimJS (s : String) : String :=
  ⟨((s.data.dropWhile Char.isWhitespace).reverse.dropWhile Char.isWhitespace).reverse⟩

/-- Model of the detection-name mapping expression
charAt(0).toUpperCase() + slice(1): uppercase the first character, keep
the rest; the empty string maps to itself. -/
def capitalizeJS (s : String) : String :=
  match s.data with
  | [] => ""
  | c :: rest => ⟨Char.toUpper c :: rest⟩

/-- Model of the JavaScript array method join(sep), starting the fold at
an arbitrary first element boundary: empty list gives the empty string. -/
def joinSep (sep : String) : List String → String
  | [] => ""
  | [x] => x
  | x :: y :: rest => x ++ sep ++ joinSep sep (y :: rest)

/-- Index-passing variant of map, the model of the JavaScript
array.map((x, idx) => ...) callback shape, starting at index `k`. -/
def mapWithIdxFrom (f : Nat → α → β) (k : Nat) : List α → List β
  | [] => []
  | a :: as => f k a :: mapWithIdxFrom f (k + 1) as

/-- Model of array.map((x, idx) => ...): map with the element index. -/
def mapWithIdx (f : Nat → α → β) (l : List α) : List β :=
  mapWithIdxFrom f 0 l

/-- Boolean test: does the character list `l` start with `p`? -/
def startsWithL : List Char → List Char → Bool
  | [], _ => true
  | _ :: _, [] => false
  | a :: as, b :: bs => a == b && startsWithL as bs

/-- Boolean test: does `p` occur contiguously somewhere in the list? -/
def hasSubL (p : List Char) : List Char → Bool
  | [] => startsWithL p []
  | b :: bs => startsWithL p (b :: bs) || hasSubL p bs

/-- The brief `s` has `sub` as a contiguous substring. -/
def strHasSub (s sub : String) : Prop := hasSubL sub.data s.data = true

instance (s sub : String) : Decidable (strHasSub s sub) := by
  unfold strHasSub; exact inferInstance

theorem startsWithL_self_append (p t : List Char) :
    startsWithL p (p ++ t) = true := by
  induction p with
  | nil => rfl
  | cons a as ih => simp [startsWithL, ih]

theorem hasSubL_of_startsWith (p l : List Char)
    (h : startsWithL p l = true) : hasSubL p l = true := by
  cases l with
  | nil => exact h
  | cons b bs => simp [hasSubL, h]

theorem hasSubL_of_decomp (p : List Char) :
    ∀ pre post : List Char, hasSubL p (pre ++ (p ++ post)) = true := by
  intro pre
  induction pre with
  | nil =>
    intro post
    exact hasSubL_of_startsWith p (p ++ post) (startsWithL_self_append p post)
  | cons x xs ih =>
    intro post
    simp only [List.cons_append, hasSubL, Bool.or_eq_true]
    exact Or.inr (ih post)

theorem strHasSub_of_decomp (s sub : String) (pre post : List Char)
    (h : s.data = pre ++ (sub.data ++ post)) : strHasSub s sub := by
  unfold strHasSub
  rw [h]
  exact hasSubL_of_decomp sub.data pre post

theorem data_append (a b : String) : (a ++ b).data = a.data ++ b.data := rfl

/-- Every member of a list of strings occurs contiguously in their
comma-separated join. -/
theorem joinSep_mem_decomp (sep : String) (l : List String) (x : String)
    (hx : x ∈ l) :
    ∃ pre post, (joinSep sep l).data = pre ++ x.data ++ post := by
  induction l with
  | nil => cases hx
  | cons a as ih =>
    cases as with
    | nil =>
      rcases List.mem_singleton.mp hx with rfl
      exact ⟨[], [], by simp [joinSep]⟩
    | cons b bs =>
      rcases List.mem_cons.mp hx with rfl | hmem
      · refine ⟨[], (sep ++ joinSep sep (b :: bs)).data, ?_⟩
        simp [joinSep, data_append, List.append_assoc]
      · obtain ⟨pre, post, hdec⟩ := ih hmem
        refine ⟨(a ++ sep).data ++ pre, post, ?_⟩
        simp [joinSep, data_append, hdec, List.append_assoc]

/-! ## The decimal rendering used by the template-literal ids

The ids interpolate the clock reading and batch index in decimal
(`Nat.repr`).  To reason about id distinctness we characterise that
rendering: its characters are decimal digits, and reading the digits
back recovers the number, so the rendering is injective. -/

/-- Value of a run of decimal digit characters, most significant first. -/
def valDigits (cs : List Char) : Nat :=
  cs.foldl (fun a c => 10 * a + (c.toNat - 48)) 0

theorem digitChar_toNat {d : Nat} (h : d < 10) :
    (Nat.digitChar d).toNat = 48 + d := by
  interval_cases d <;> decide

theorem digitChar_isDigit {d : Nat} (h : d < 10) :
    (Nat.digitChar d).isDigit = true := by
  interval_cases d <;> decide

theorem toDigitsCore_acc (fuel : Nat) : ∀ (n : Nat) (ds : List Char),
    Nat.toDigitsCore 10 fuel n ds = Nat.toDigitsCore 10 fuel n [] ++ ds := by
  induction fuel with
  | zero => intro n ds; simp [Nat.toDigitsCore]
  | succ fuel ih =>
    intro n ds
    by_cases h : n / 10 = 0
    · simp [Nat.toDigitsCore, h]
    · simp only [Nat.toDigitsCore, h, if_neg, ite_false]
      rw [ih (n / 10) (Nat.digitChar (n % 10) :: ds),
        ih (n / 10) [Nat.digitChar (n % 10)], List.append_assoc]
      rfl

theorem valDigits_append_singleton (xs : List Char) (c : Char) :
    valDigits (xs ++ [c]) = 10 * valDigits xs + (c.toNat - 48) := by
  unfold valDigits
  rw [List.foldl_append]
  rfl

theorem valDigits_toDigitsCore : ∀ fuel n, n < fuel →
    valDigits (Nat.toDigitsCore 10 fuel n []) = n := by
  intro fuel
  induction fuel with
  | zero => intro n h; exact absurd h (Nat.not_lt_zero n)
  | succ fuel ih =>
    intro n hn
    by_cases h : n / 10 = 0
    · have hlt : n < 10 := by omega
      simp only [Nat.toDigitsCore, h, ite_true, valDigits, List.foldl_cons,
        List.foldl_nil]
      rw [digitChar_toNat (by omega : n % 10 < 10)]
      omega
    · have hge : 10 ≤ n := by omega
      have hstep : Nat.toDigitsCore 10 (fuel + 1) n [] =
          Nat.toDigitsCore 10 fuel (n / 10) [Nat.digitChar (n % 10)] := by
        simp [Nat.toDigitsCore, h]
      have hdiv : n / 10 < fuel :=
        Nat.lt_of_lt_of_le (Nat.div_lt_self (by omega) (by norm_num))
          (Nat.lt_succ_iff.mp hn)
      rw [hstep, toDigitsCore_acc, valDigits_append_singleton, ih (n / 10) hdiv,
        digitChar_toNat (by omega : n % 10 < 10)]
      omega

theorem toDigitsCore_digits (fuel : Nat) : ∀ n ds,
    (∀ c ∈ ds, c.isDigit = true) →
    ∀ c ∈ Nat.toDigitsCore 10 fuel n ds, c.isDigit = true := by
  induction fuel with
  | zero => intro n ds hds; simpa [Nat.toDigitsCore] using hds
  | succ fuel ih =>
    intro n ds hds
    have hd : (Nat.digitChar (n % 10)).isDigit = true :=
      digitChar_isDigit (by omega : n % 10 < 10)
    have hcons : ∀ c ∈ Nat.digitChar (n % 10) :: ds, c.isDigit = true := by
      intro c hc
      rcases List.mem_cons.mp hc with rfl | hc
      · exact hd
      · exact hds c hc
    by_cases h : n / 10 = 0
    · simpa [Nat.toDigitsCore, h] using hcons
    · simp only [Nat.toDigitsCore, h, if_neg, ite_false]
      exact ih (n / 10) (Nat.digitChar (n % 10) :: ds) hcons

theorem repr_data_eq (n : Nat) :
    (Nat.repr n).data = Nat.toDigits 10 n := rfl

theorem repr_data_inj {m n : Nat}
    (h : (Nat.repr m).data = (Nat.repr n).data) : m = n := by
  have hm := valDigits_toDigitsCore (m + 1) m (Nat.lt_succ_self m)
  have hn := valDigits_toDigitsCore (n + 1) n (Nat.lt_succ_self n)
  rw [repr_data_eq, repr_data_eq] at h
  unfold Nat.toDigits at h
  rw [← hm, ← hn, h]

theorem repr_digits (n : Nat) : ∀ c ∈ (Nat.repr n).data, c.isDigit = true := by
  rw [repr_data_eq]
  exact toDigitsCore_digits (n + 1) n [] (by intro c hc; cases hc)

theorem dash_not_mem_repr (n : Nat) : '-' ∉ (Nat.repr n).data := by
  intro h
  have := repr_digits n '-' h
  simp [Char.isDigit] at this

theorem append_sep_inj {sep : Char} :
    ∀ (xs₁ xs₂ ys₁ ys₂ : List Char), sep ∉ xs₁ → sep ∉ xs₂ →
      xs₁ ++ sep :: ys₁ = xs₂ ++ sep :: ys₂ → xs₁ = xs₂ ∧ ys₁ = ys₂ := by
  intro xs₁
  induction xs₁ with
  | nil =>
    intro xs₂ ys₁ ys₂ _ h₂ heq
    cases xs₂ with
    | nil => simpa using heq
    | cons b bs =>
      simp only [List.nil_append, List.cons_append, List.cons.injEq] at heq
      exact absurd (heq.1 ▸ List.mem_cons_self b bs) h₂
  | cons a as ih =>
    intro xs₂ ys₁ ys₂ h₁ h₂ heq
    cases xs₂ with
    | nil =>
      simp only [List.cons_append, List.nil_append, List.cons.injEq] at heq
      exact absurd (heq.1 ▸ List.mem_cons_self a as) h₁
    | cons b bs =>
      simp only [List.cons_append, List.cons.injEq] at heq
      obtain ⟨hxs, hys⟩ := ih bs ys₁ ys₂ (fun hm => h₁ (List.mem_cons_of_mem a hm))
        (fun hm => h₂ (List.mem_cons_of_mem b hm)) heq.2
      exact ⟨by rw [heq.1, hxs], hys⟩

/-! ## Ingredient ids

Detection maps each name at batch index `idx`, read at clock value `t`,
to the template-literal id with marker ing; manual entry uses the marker
manual and the clock value alone. -/

/-- The detection-batch id (template literal with markers ing and the
batch index). -/
def detectedId (t idx : Nat) : String :=
  "ing-" ++ Nat.repr t ++ "-" ++ Nat.repr idx

/-- The manual-entry id (template literal with marker manual). -/
def manualId (t : Nat) : String :=
  "manual-" ++ Nat.repr t

theorem detectedId_data (t idx : Nat) :
    (detectedId t idx).data =
      'i' :: 'n' :: 'g' :: '-' ::
        ((Nat.repr t).data ++ '-' :: (Nat.repr idx).data) := by
  show ("ing-".data ++ (Nat.repr t).data ++ "-".data ++ (Nat.repr idx).data) = _
  simp

theorem manualId_data (t : Nat) :
    (manualId t).data =
      'm' :: 'a' :: 'n' :: 'u' :: 'a' :: 'l' :: '-' :: (Nat.repr t).data := by
  show ("manual-".data ++ (Nat.repr t).data) = _
  simp

theorem detectedId_inj {t₁ i₁ t₂ i₂ : Nat}
    (h : detectedId t₁ i₁ = detectedId t₂ i₂) : t₁ = t₂ ∧ i₁ = i₂ := by
  have hdata := congrArg String.data h
  rw [detectedId_data, detectedId_data] at hdata
  simp only [List.cons.injEq, true_and] at hdata
  obtain ⟨ht, hi⟩ := append_sep_inj (Nat.repr t₁).data (Nat.repr t₂).data
    (Nat.repr i₁).data (Nat.repr i₂).data
    (dash_not_mem_repr t₁) (dash_not_mem_repr t₂) hdata
  exact ⟨repr_data_inj ht, repr_data_inj hi⟩

theorem manualId_inj {t₁ t₂ : Nat} (h : manualId t₁ = manualId t₂) :
    t₁ = t₂ := by
  have hdata := congrArg String.data h
  rw [manualId_data, manualId_data] at hdata
  simp only [List.cons.injEq, true_and] at hdata
  exact repr_data_inj hdata

theorem detectedId_ne_manualId (t idx t' : Nat) :
    detectedId t idx ≠ manualId t' := by
  intro h
  have hdata := congrArg String.data h
  rw [detectedId_data, manualId_data] at hdata
  simp at hdata

/-! ## Data model -/

/-- The dietary preference enumeration; each member carries a Spanish
display string as its value. -/
inductive DietaryPreference
  | NONE
  | VEGETARIAN
  | VEGAN
deriving DecidableEq

/-- The string value assigned to each enumeration member. -/
def DietaryPreference.label : DietaryPreference → String
  | .NONE => "Ninguna"
  | .VEGETARIAN => "Vegetariano"
  | .VEGAN => "Vegano"

/-- A roster entry. -/
structure Ingredient where
  id : String
  name : String
  isPriority : Bool
deriving DecidableEq

/-- A suggested recipe (difficulty is one of the three Spanish labels,
kept as a string as in the source union type). -/
structure Recipe where
  id : String
  title : String
  description : String
  ingredientsUsed : List String
  missingIngredients : List String
  steps : List String
  difficulty : String
  time : String
deriving DecidableEq

/-- The view-state machine values. -/
inductive ViewState
  | HOME
  | CAMERA
  | INGREDIENTS
  | RECIPES
  | RECIPE_DETAIL
deriving DecidableEq

/-- The media-element readiness constant HAVE_ENOUGH_DATA. -/
def HAVE_ENOUGH_DATA : Nat := 4

/-- The video element state read by the capture step: readiness signal,
natural pixel dimensions, and an abstract token for the currently
decoded frame. -/
structure VideoEl where
  readyState : Nat
  videoWidth : Nat
  videoHeight : Nat
  frame : Nat
deriving DecidableEq

/-- The canvas element; obtaining its 2d drawing context may fail, which
the code guards. -/
structure CanvasEl where
  ctx2d : Option Unit
deriving DecidableEq

/-- The App component state (its useState cells), plus a log of the
alert calls it made, so surfaced messages can be stated.  The media
stream is an abstract device handle. -/
structure AppState where
  view : ViewState
  loading : Bool
  loadingMessage : String
  ingredients : List Ingredient
  recipes : List Recipe
  selectedRecipe : Option Recipe
  dietaryPreference : DietaryPreference
  newIngredientText : String
  capturedImages : List String
  stream : Option Nat
  alerts : List String
deriving DecidableEq

/-- The state at component mount: Home view, everything empty. -/
def initState : AppState where
  view := .HOME
  loading := false
  loadingMessage := ""
  ingredients := []
  recipes := []
  selectedRecipe := none
  dietaryPreference := .NONE
  newIngredientText := ""
  capturedImages := []
  stream := none
  alerts := []

/-! ## Provider gateway -/

/-- Gateway operation A.  The provider round trip either fails or yields
the decoded structured result, whose list field may be absent (`none`);
an absent field becomes the empty list, and any failure is re-signaled
as the single normalized detection-failed error. -/
def detectIngredientsFromImages (images : List String)
    (providerResult : Except String (Option (List String))) :
    Except String (List String) :=
  match images, providerResult with
  | _, .ok (some names) => .ok names
  | _, .ok none => .ok []
  | _, .error _ =>
    .error "No pudimos identificar los ingredientes. Inténtalo de nuevo."

/-- The fixed closing paragraph of the suggestion brief (the template
literal appended last, newlines and indentation included). -/
def suggestTail : String :=
  "\n      Sugiere 4 recetas sencillas y creativas que maximicen el uso de mis ingredientes disponibles. \n      Se permiten sugerir ingredientes básicos de despensa (sal, aceite, pimienta, agua) sin listarlos como \"faltantes\".\n      Prioriza recetas donde \x27missingIngredients\x27 sea una lista vacía o muy corta.\n    "

/-- The joined roster ingredient names, as interpolated into the brief. -/
def rosterNames (ingredients : List Ingredient) : String :=
  joinSep ", " (ingredients.map (fun i => i.name))

/-- The joined names of the priority-flagged roster entries, as
interpolated into the priority call-out of the brief. -/
def priorityNamesStr (ingredients : List Ingredient) : String :=
  joinSep ", " ((ingredients.filter (fun i => i.isPriority)).map (fun i => i.name))

/-- The priority call-out sentence of the brief. -/
def priorityClause (ingredients : List Ingredient) : String :=
  "IMPORTANTE: Debes intentar usar estos ingredientes prioritarios que van a caducar: "
    ++ priorityNamesStr ingredients ++ ". "

/-- The strict dietary-constraint sentence of the brief. -/
def dietClause (preference : DietaryPreference) : String :=
  "Restricción dietética estricta: " ++ preference.label ++ ". "

/-- The natural-language brief built inside suggestRecipes before any
provider is called: the joined available names; the priority call-out
exactly when the joined priority names are a non-empty string (the
JavaScript truthiness test on the joined string); the strict dietary
restriction exactly when the preference is not NONE; then the fixed
closing paragraph. -/
def suggestRecipesPrompt (ingredients : List Ingredient)
    (preference : DietaryPreference) : String :=
  let p₁ := "Tengo estos ingredientes disponibles: " ++ rosterNames ingredients ++ ". "
  let p₂ :=
    if priorityNamesStr ingredients = "" then p₁
    else p₁ ++ priorityClause ingredients
  let p₃ :=
    if preference = DietaryPreference.NONE then p₂
    else p₂ ++ dietClause preference
  p₃ ++ suggestTail

/-! ## App handlers

Each handler is a state transformer.  The clock value the code reads
during the handler is an explicit `Nat` argument, and an awaited gateway
round trip is an explicit `Except` outcome argument. -/

/-- The new-Ingredient mapping inside processImages: each detected name
at its batch index becomes a roster entry with a capitalized leading
character, priority off, and the batch id. -/
def detectedBatch (t : Nat) (detectedNames : List String) : List Ingredient :=
  mapWithIdx (fun idx name =>
    { id := detectedId t idx, name := capitalizeJS name, isPriority := false })
    detectedNames

/-- processImages: enter the loading state with its status message; on a
successful detection append the mapped batch and go to the roster view;
on failure alert the single generic message; clear the loading flag on
both paths. -/
def processImages (s : AppState) (t : Nat)
    (detection : Except String (List String)) : AppState :=
  let s₁ := { s with loading := true,
                     loadingMessage := "Detectando ingredientes..." }
  match detection with
  | .ok detectedNames =>
    { s₁ with
      ingredients := s₁.ingredients ++ detectedBatch t detectedNames,
      view := .INGREDIENTS,
      loading := false }
  | .error _ =>
    { s₁ with
      alerts := s₁.alerts ++ ["Ocurrió un error. Inténtalo de nuevo."],
      loading := false }

/-- stopCamera: stop the tracks and clear the handle when one is bound;
otherwise do nothing. -/
def stopCamera (s : AppState) : AppState :=
  match s.stream with
  | some _ => { s with stream := none }
  | none => s

/-- The base64 payload of the canvas JPEG data URL (after the data-URI
header is split off): an abstract encoding of the drawn frame at the
canvas dimensions, tagged with the fixed quality factor, 8 tenths. -/
def jpegBase64 (w h frame qTenths : Nat) : String :=
  "jpeg-" ++ Nat.repr w ++ "x" ++ Nat.repr h ++ "-f" ++ Nat.repr frame ++
    "-q" ++ Nat.repr qTenths

/-- The fixed JPEG quality factor 0.8, recorded in tenths. -/
def captureQualityTenths : Nat := 8

/-- capturePhoto: when both element refs are bound, the video reports
HAVE_ENOUGH_DATA or a positive natural width, and the 2d context is
available, append one encoded still at the native resolution; in every
other case leave the state untouched. -/
def capturePhoto (videoRef : Option VideoEl) (canvasRef : Option CanvasEl)
    (s : AppState) : AppState :=
  match videoRef, canvasRef with
  | some video, some canvas =>
    if video.readyState = HAVE_ENOUGH_DATA ∨ 0 < video.videoWidth then
      match canvas.ctx2d with
      | some _ =>
        { s with capturedImages := s.capturedImages ++
            [jpegBase64 video.videoWidth video.videoHeight video.frame
              captureQualityTenths] }
      | none => s
    else s
  | _, _ => s

/-- addManualIngredient: a no-op when the trimmed pending text is empty
(JavaScript truthiness of the trimmed string); otherwise append one
entry carrying the trimmed text and clear the pending text field. -/
def addManualIngredient (s : AppState) (t : Nat) : AppState :=
  if trimJS s.newIngredientText = "" then s
  else
    { s with
      ingredients := s.ingredients ++
        [{ id := manualId t, name := trimJS s.newIngredientText,
           isPriority := false }],
      newIngredientText := "" }

/-- removeIngredient: keep every entry whose id differs. -/
def removeIngredient (s : AppState) (id : String) : AppState :=
  { s with ingredients := s.ingredients.filter (fun i => i.id != id) }

/-- togglePriority: flip the flag on the matching entry, keep the rest. -/
def togglePriority (s : AppState) (id : String) : AppState :=
  { s with ingredients := s.ingredients.map (fun i =>
      if i.id = id then { i with isPriority := !i.isPriority } else i) }

/-- handleGenerateRecipes: validate the roster is non-empty (alerting and
skipping the gateway otherwise); then enter the loading state, and on a
successful round trip replace the batch and move to the recipe list, on
failure alert the single message; clear the loading flag on both paths.
The boolean records whether the gateway was called. -/
def handleGenerateRecipes (s : AppState)
    (gateway : Except String (List Recipe)) : AppState × Bool :=
  if s.ingredients.length = 0 then
    ({ s with alerts := s.alerts ++ ["Añade al menos un ingrediente."] }, false)
  else
    let s₁ := { s with loading := true,
                       loadingMessage := "Diseñando recetas con tus ingredientes..." }
    match gateway with
    | .ok generatedRecipes =>
      ({ s₁ with recipes := generatedRecipes, view := .RECIPES,
                 loading := false }, true)
    | .error _ =>
      ({ s₁ with
         alerts := s₁.alerts ++ ["Error al generar recetas. Inténtalo más tarde."],
         loading := false }, true)

/-! ## Shape of a detection batch -/

theorem mapWithIdxFrom_length (f : Nat → α → β) :
    ∀ (k : Nat) (l : List α), (mapWithIdxFrom f k l).length = l.length := by
  intro k l
  induction l generalizing k with
  | nil => rfl
  | cons a as ih => simp [mapWithIdxFrom, ih]

theorem detectedBatchFrom_ids (t : Nat) :
    ∀ (names : List String) (k : Nat),
      (mapWithIdxFrom (fun idx name =>
          Ingredient.mk (detectedId t idx) (capitalizeJS name) false) k names).map
        Ingredient.id = (List.range' k names.length).map (detectedId t) := by
  intro names
  induction names with
  | nil => intro k; rfl
  | cons a as ih =>
    intro k
    simp only [mapWithIdxFrom, List.map_cons, List.length_cons, List.range'_succ]
    rw [ih (k + 1)]

theorem detectedBatch_ids (t : Nat) (names : List String) :
    (detectedBatch t names).map Ingredient.id =
      (List.range names.length).map (detectedId t) := by
  rw [detectedBatch, mapWithIdx, detectedBatchFrom_ids, List.range_eq_range']

theorem detectedBatch_names (t : Nat) (names : List String) :
    (detectedBatch t names).map Ingredient.name = names.map capitalizeJS := by
  rw [detectedBatch, mapWithIdx]
  generalize 0 = k
  induction names generalizing k with
  | nil => rfl
  | cons a as ih => simp [mapWithIdxFrom, ih]

theorem detectedBatch_length (t : Nat) (names : List String) :
    (detectedBatch t names).length = names.length :=
  mapWithIdxFrom_length _ 0 names

theorem mem_detectedBatchFrom (t : Nat) :
    ∀ (names : List String) (k : Nat) (i : Ingredient),
      i ∈ mapWithIdxFrom (fun idx name =>
          Ingredient.mk (detectedId t idx) (capitalizeJS name) false) k names →
      ∃ idx name, k ≤ idx ∧ idx < k + names.length ∧ name ∈ names ∧
        i = Ingredient.mk (detectedId t idx) (capitalizeJS name) false := by
  intro names
  induction names with
  | nil => intro k i h; cases h
  | cons a as ih =>
    intro k i h
    rcases List.mem_cons.mp h with rfl | h
    · exact ⟨k, a, Nat.le_refl k, by simp, List.mem_cons_self a as, rfl⟩
    · obtain ⟨idx, name, hk, hlt, hmem, hi⟩ := ih (k + 1) i h
      exact ⟨idx, name, by omega, by simp at hlt ⊢; omega,
        List.mem_cons_of_mem a hmem, hi⟩

theorem mem_detectedBatch (t : Nat) (names : List String) (i : Ingredient)
    (h : i ∈ detectedBatch t names) :
    ∃ idx name, idx < names.length ∧ name ∈ names ∧
      i = Ingredient.mk (detectedId t idx) (capitalizeJS name) false := by
  obtain ⟨idx, name, _, hlt, hmem, hi⟩ := mem_detectedBatchFrom t names 0 i h
  exact ⟨idx, name, by omega, hmem, hi⟩

theorem detectedBatch_ids_nodup (t : Nat) (names : List String) :
    ((detectedBatch t names).map Ingredient.id).Nodup := by
  rw [detectedBatch_ids]
  refine List.Nodup.map_on ?_ (List.nodup_range names.length)
  intro x _ y _ hxy
  exact (detectedId_inj hxy).2

/-! ## Sequences of roster operations -/

/-- One roster-editing operation, carrying the clock value the code
reads while performing it. -/
inductive RosterOp
  | detect (t : Nat) (names : List String)
  | manualAdd (t : Nat) (text : String)
  | remove (id : String)
  | toggle (id : String)
deriving DecidableEq

/-- Apply one roster operation through the corresponding App handler
(manual entry first types the text into the pending field). -/
def applyOp (s : AppState) : RosterOp → AppState
  | .detect t names => processImages s t (.ok names)
  | .manualAdd t text => addManualIngredient { s with newIngredientText := text } t
  | .remove id => removeIngredient s id
  | .toggle id => togglePriority s id

/-- Run a sequence of roster operations from a state. -/
def runOps (s : AppState) : List RosterOp → AppState
  | [] => s
  | op :: ops => runOps (applyOp s op) ops

/-- The clock readings along a run are fresh: every id-creating
operation reads a value at least `n`, and each later operation reads a
strictly larger value than the one before it. -/
def timesOK (n : Nat) : List RosterOp → Bool
  | [] => true
  | RosterOp.detect t _ :: ops => decide (n ≤ t) && timesOK (t + 1) ops
  | RosterOp.manualAdd t _ :: ops => decide (n ≤ t) && timesOK (t + 1) ops
  | RosterOp.remove _ :: ops => timesOK n ops
  | RosterOp.toggle _ :: ops => timesOK n ops

/-- No id in the list was built from a clock value of `n` or later. -/
def freshIds (n : Nat) (ings : List Ingredient) : Prop :=
  ∀ i ∈ ings, ∀ t, n ≤ t →
    (∀ idx, i.id ≠ detectedId t idx) ∧ i.id ≠ manualId t

theorem freshIds_mono {n m : Nat} (h : n ≤ m) {l : List Ingredient}
    (hf : freshIds n l) : freshIds m l := by
  intro i hi t ht
  exact hf i hi t (Nat.le_trans h ht)

theorem freshIds_nil (n : Nat) : freshIds n [] := by
  intro i hi
  cases hi

theorem applyOp_detect_inv {n t : Nat} {s : AppState} {names : List String}
    (hnd : (s.ingredients.map Ingredient.id).Nodup)
    (hf : freshIds n s.ingredients) (hnt : n ≤ t) :
    ((applyOp s (.detect t names)).ingredients.map Ingredient.id).Nodup ∧
      freshIds (t + 1) (applyOp s (.detect t names)).ingredients := by
  have hing : (applyOp s (.detect t names)).ingredients
      = s.ingredients ++ detectedBatch t names := rfl
  constructor
  · rw [hing, List.map_append, List.nodup_append]
    refine ⟨hnd, detectedBatch_ids_nodup t names, ?_⟩
    intro x hx hx'
    obtain ⟨i, hi, rfl⟩ := List.mem_map.mp hx
    obtain ⟨j, hj, hjx⟩ := List.mem_map.mp hx'
    obtain ⟨idx, name, _, _, rfl⟩ := mem_detectedBatch t names j hj
    exact (hf i hi t hnt).1 idx hjx.symm
  · rw [hing]
    intro i hi t' ht'
    rcases List.mem_append.mp hi with hi | hi
    · exact hf i hi t' (by omega)
    · obtain ⟨idx, name, _, _, rfl⟩ := mem_detectedBatch t names i hi
      constructor
      · intro idx' heq
        have := (detectedId_inj heq).1
        omega
      · exact detectedId_ne_manualId t idx t'

theorem applyOp_manualAdd_inv {n t : Nat} {s : AppState} {text : String}
    (hnd : (s.ingredients.map Ingredient.id).Nodup)
    (hf : freshIds n s.ingredients) (hnt : n ≤ t) :
    ((applyOp s (.manualAdd t text)).ingredients.map Ingredient.id).Nodup ∧
      freshIds (t + 1) (applyOp s (.manualAdd t text)).ingredients := by
  have hRW : (applyOp s (.manualAdd t text)).ingredients =
      (if trimJS text = "" then s.ingredients
       else s.ingredients ++
        [{ id := manualId t, name := trimJS text, isPriority := false }]) := by
    show (addManualIngredient { s with newIngredientText := text } t).ingredients = _
    unfold addManualIngredient
    by_cases h : trimJS text = "" <;> simp [h]
  rw [hRW]
  by_cases h : trimJS text = ""
  · rw [if_pos h]
    exact ⟨hnd, freshIds_mono (by omega) hf⟩
  · rw [if_neg h]
    constructor
    · rw [List.map_append, List.nodup_append]
      refine ⟨hnd, List.nodup_singleton _, ?_⟩
      intro x hx hx'
      obtain ⟨i, hi, rfl⟩ := List.mem_map.mp hx
      simp only [List.map_cons, List.map_nil, List.mem_singleton] at hx'
      exact (hf i hi t hnt).2 hx'
    · intro i hi t' ht'
      rcases List.mem_append.mp hi with hi | hi
      · exact hf i hi t' (by omega)
      · simp only [List.mem_singleton] at hi
        subst hi
        constructor
        · intro idx heq
          exact detectedId_ne_manualId t' idx t heq.symm
        · intro heq
          have := manualId_inj heq
          omega

theorem toggle_map_ids (l : List Ingredient) (id : String) :
    (l.map (fun i =>
        if i.id = id then { i with isPriority := !i.isPriority } else i)).map
      Ingredient.id = l.map Ingredient.id := by
  have hid : ∀ a : Ingredient,
      (if a.id = id then { a with isPriority := !a.isPriority } else a).id
        = a.id := by
    intro a
    split <;> rfl
  rw [List.map_map]
  simp [Function.comp_def, hid]

theorem applyOp_remove_inv (n : Nat) {s : AppState} {id : String}
    (hnd : (s.ingredients.map Ingredient.id).Nodup)
    (hf : freshIds n s.ingredients) :
    ((applyOp s (.remove id)).ingredients.map Ingredient.id).Nodup ∧
      freshIds n (applyOp s (.remove id)).ingredients := by
  constructor
  · exact List.Nodup.sublist
      (List.Sublist.map Ingredient.id (List.filter_sublist s.ingredients)) hnd
  · intro i hi t ht
    exact hf i (List.mem_of_mem_filter hi) t ht

theorem applyOp_toggle_inv (n : Nat) {s : AppState} {id : String}
    (hnd : (s.ingredients.map Ingredient.id).Nodup)
    (hf : freshIds n s.ingredients) :
    ((applyOp s (.toggle id)).ingredients.map Ingredient.id).Nodup ∧
      freshIds n (applyOp s (.toggle id)).ingredients := by
  constructor
  · show ((s.ingredients.map _).map Ingredient.id).Nodup
    rw [toggle_map_ids]
    exact hnd
  · intro i hi t ht
    obtain ⟨j, hj, rfl⟩ := List.mem_map.mp hi
    have hjid : (if j.id = id then
        { j with isPriority := !j.isPriority } else j).id = j.id := by
      split <;> rfl
    rw [hjid]
    exact hf j hj t ht

theorem runOps_inv : ∀ (ops : List RosterOp) (n : Nat) (s : AppState),
    (s.ingredients.map Ingredient.id).Nodup → freshIds n s.ingredients →
    timesOK n ops = true →
    ((runOps s ops).ingredients.map Ingredient.id).Nodup := by
  intro ops
  induction ops with
  | nil => intro n s hnd _ _; exact hnd
  | cons op ops ih =>
    intro n s hnd hf htime
    cases op with
    | detect t names =>
      simp only [timesOK, Bool.and_eq_true, decide_eq_true_eq] at htime
      obtain ⟨hnd', hf'⟩ := applyOp_detect_inv hnd hf htime.1
      exact ih (t + 1) _ hnd' hf' htime.2
    | manualAdd t text =>
      simp only [timesOK, Bool.and_eq_true, decide_eq_true_eq] at htime
      obtain ⟨hnd', hf'⟩ := applyOp_manualAdd_inv hnd hf htime.1
      exact ih (t + 1) _ hnd' hf' htime.2
    | remove id =>
      obtain ⟨hnd', hf'⟩ := applyOp_remove_inv n hnd hf
      exact ih n _ hnd' hf' htime
    | toggle id =>
      obtain ⟨hnd', hf'⟩ := applyOp_toggle_inv n hnd hf
      exact ih n _ hnd' hf' htime

/-! ## Auxiliary facts about characters, joins and substrings -/

theorem toNat_ofNat_of_valid {n : Nat} (h : n.isValidChar) :
    (Char.ofNat n).toNat = n := by
  unfold Char.ofNat
  rw [dif_pos h]
  rfl

theorem toUpper_toUpper (c : Char) : c.toUpper.toUpper = c.toUpper := by
  unfold Char.toUpper
  by_cases h : c.toNat ≥ 97 ∧ c.toNat ≤ 122
  · rw [if_pos h]
    have hv : (c.toNat - 32).isValidChar := Or.inl (by omega)
    rw [if_neg]
    rw [toNat_ofNat_of_valid hv]
    omega
  · rw [if_neg h, if_neg h]

theorem startsWithL_mono (p : List Char) : ∀ l m : List Char,
    startsWithL p l = true → startsWithL p (l ++ m) = true := by
  induction p with
  | nil => intro l m _; rfl
  | cons a as ih =>
    intro l m h
    cases l with
    | nil => cases h
    | cons b bs =>
      simp only [startsWithL, Bool.and_eq_true] at h
      simp only [List.cons_append, startsWithL, Bool.and_eq_true]
      exact ⟨h.1, ih bs m h.2⟩

theorem hasSubL_append_right (p : List Char) : ∀ l m : List Char,
    hasSubL p l = true → hasSubL p (l ++ m) = true := by
  intro l
  induction l with
  | nil =>
    intro m h
    cases p with
    | nil =>
      cases m with
      | nil => rfl
      | cons c cs => simp [hasSubL, startsWithL]
    | cons a as => cases h
  | cons b bs ih =>
    intro m h
    simp only [hasSubL, Bool.or_eq_true] at h
    rcases h with h | h
    · simp only [List.cons_append, hasSubL, Bool.or_eq_true]
      exact Or.inl (startsWithL_mono p (b :: bs) m h)
    · simp only [List.cons_append, hasSubL, Bool.or_eq_true]
      exact Or.inr (ih m h)

theorem hasSubL_append_left (p : List Char) : ∀ a l : List Char,
    hasSubL p l = true → hasSubL p (a ++ l) = true := by
  intro a
  induction a with
  | nil => intro l h; exact h
  | cons x xs ih =>
    intro l h
    simp only [List.cons_append, hasSubL, Bool.or_eq_true]
    exact Or.inr (ih l h)

theorem strHasSub_append_left {b sub : String} (a : String)
    (h : strHasSub b sub) : strHasSub (a ++ b) sub := by
  unfold strHasSub at h ⊢
  rw [data_append]
  exact hasSubL_append_left sub.data a.data b.data h

theorem strHasSub_append_right {a sub : String} (b : String)
    (h : strHasSub a sub) : strHasSub (a ++ b) sub := by
  unfold strHasSub at h ⊢
  rw [data_append]
  exact hasSubL_append_right sub.data a.data b.data h

theorem joinSep_ne_empty (sep : String) : ∀ l : List String,
    l ≠ [] → (∀ x ∈ l, x ≠ "") → joinSep sep l ≠ "" := by
  intro l
  match l with
  | [] => intro h _; exact absurd rfl h
  | [x] =>
    intro _ hx
    simpa [joinSep] using hx x (List.mem_singleton.mpr rfl)
  | x :: y :: rest =>
    intro _ hx h
    have hxne : x ≠ "" := hx x (List.mem_cons_self x _)
    have hdata := congrArg String.data h
    rw [joinSep, data_append, data_append] at hdata
    cases hcx : x.data with
    | nil => exact hxne (by cases x; simp at hcx; simp [hcx])
    | cons c cs => rw [hcx] at hdata; simp at hdata

theorem filter_eq_self_of_true {p : α → Bool} : ∀ l : List α,
    (∀ x ∈ l, p x = true) → l.filter p = l := by
  intro l h
  induction l with
  | nil => rfl
  | cons a as ih =>
    rw [List.filter_cons, if_pos (h a (List.mem_cons_self a as))]
    rw [ih (fun x hx => h x (List.mem_cons_of_mem a hx))]

theorem map_eq_self_of_fix {f : α → α} : ∀ l : List α,
    (∀ x ∈ l, f x = x) → l.map f = l := by
  intro l h
  induction l with
  | nil => rfl
  | cons a as ih =>
    rw [List.map_cons, h a (List.mem_cons_self a as),
      ih (fun x hx => h x (List.mem_cons_of_mem a hx))]

/-! ## Claims -/

/-- C2: a successful detection appends exactly one new ingredient per
name in the response — priority off, names capitalized, ids indexed in
detection order — preserves every existing roster entry unchanged, and
moves the view to the ingredient-roster screen. -/
theorem processImages_success_appends_batch (s : AppState) (t : Nat)
    (names : List String) :
    (processImages s t (.ok names)).ingredients
        = s.ingredients ++ detectedBatch t names ∧
      (detectedBatch t names).length = names.length ∧
      (detectedBatch t names).map Ingredient.id
        = (List.range names.length).map (detectedId t) ∧
      (detectedBatch t names).map Ingredient.name = names.map capitalizeJS ∧
      (∀ i ∈ detectedBatch t names, i.isPriority = false) ∧
      (processImages s t (.ok names)).view = ViewState.INGREDIENTS := by
  refine ⟨rfl, detectedBatch_length t names, detectedBatch_ids t names,
    detectedBatch_names t names, ?_, rfl⟩
  intro i hi
  obtain ⟨idx, name, _, _, rfl⟩ := mem_detectedBatch t names i hi
  rfl

/-- C3: a failed detection round trip is normalized to the single
detection-failed error, the ingestion handler surfaces exactly one alert
message, leaves the roster and the view unchanged, and clears the
loading flag; the loading flag is cleared on the success path as well. -/
theorem processImages_failure_frame (s : AppState) (t : Nat)
    (images : List String) (e : String) (names : List String) :
    detectIngredientsFromImages images (.error e)
        = .error "No pudimos identificar los ingredientes. Inténtalo de nuevo." ∧
      (processImages s t (detectIngredientsFromImages images (.error e))).alerts
        = s.alerts ++ ["Ocurrió un error. Inténtalo de nuevo."] ∧
      (processImages s t (detectIngredientsFromImages images (.error e))).ingredients
        = s.ingredients ∧
      (processImages s t (detectIngredientsFromImages images (.error e))).view
        = s.view ∧
      (processImages s t (detectIngredientsFromImages images (.error e))).loading
        = false ∧
      (processImages s t (.ok names)).loading = false :=
  ⟨rfl, rfl, rfl, rfl, rfl, rfl⟩

/-- C4: requesting recipes with an empty roster surfaces the validation
alert, issues no gateway call, and leaves every other state component —
in particular the view — unchanged. -/
theorem handleGenerateRecipes_empty_roster (s : AppState)
    (gateway : Except String (List Recipe)) (h : s.ingredients = []) :
    (handleGenerateRecipes s gateway).1
        = { s with alerts := s.alerts ++ ["Añade al menos un ingrediente."] } ∧
      (handleGenerateRecipes s gateway).2 = false := by
  unfold handleGenerateRecipes
  rw [if_pos (by rw [h]; rfl)]
  exact ⟨rfl, rfl⟩

/-- Witness for C4 at a concrete empty-roster state on the roster view. -/
theorem handleGenerateRecipes_empty_roster_witness :
    (handleGenerateRecipes { initState with view := ViewState.INGREDIENTS }
        (Except.error "transport")).1
      = { { initState with view := ViewState.INGREDIENTS } with
          alerts := ({ initState with view := ViewState.INGREDIENTS } : AppState).alerts
            ++ ["Añade al menos un ingrediente."] } ∧
    (handleGenerateRecipes { initState with view := ViewState.INGREDIENTS }
        (Except.error "transport")).2 = false :=
  handleGenerateRecipes_empty_roster
    { initState with view := ViewState.INGREDIENTS } (Except.error "transport") rfl

/-- C5: a failed suggestion round trip surfaces exactly one alert and
preserves the previously held recipe batch, the roster, the selected
recipe and the view; the loading flag ends cleared. -/
theorem handleGenerateRecipes_failure_frame (s : AppState) (e : String)
    (h : s.ingredients ≠ []) :
    (handleGenerateRecipes s (.error e)).1.recipes = s.recipes ∧
      (handleGenerateRecipes s (.error e)).1.ingredients = s.ingredients ∧
      (handleGenerateRecipes s (.error e)).1.view = s.view ∧
      (handleGenerateRecipes s (.error e)).1.selectedRecipe = s.selectedRecipe ∧
      (handleGenerateRecipes s (.error e)).1.loading = false ∧
      (handleGenerateRecipes s (.error e)).1.alerts
        = s.alerts ++ ["Error al generar recetas. Inténtalo más tarde."] := by
  unfold handleGenerateRecipes
  rw [if_neg (by simpa [List.length_eq_zero] using h)]
  exact ⟨rfl, rfl, rfl, rfl, rfl, rfl⟩

/-- A concrete recipe for exercising the suggestion failure path. -/
def sampleRecipe : Recipe where
  id := "recipe-gemini-0-0"
  title := "Tortilla"
  description := ""
  ingredientsUsed := ["Queso"]
  missingIngredients := []
  steps := ["Mezclar"]
  difficulty := "Fácil"
  time := "15 min"

/-- A concrete roster state holding one ingredient and a prior recipe
batch, on the roster view. -/
def sampleRosterState : AppState :=
  { initState with
    view := ViewState.INGREDIENTS,
    ingredients := [{ id := "manual-1", name := "Queso", isPriority := false }],
    recipes := [sampleRecipe] }

/-- Witness for C5 at a concrete one-ingredient state holding a prior
recipe batch. -/
theorem handleGenerateRecipes_failure_frame_witness :
    (handleGenerateRecipes sampleRosterState (.error "auth")).1.recipes
        = sampleRosterState.recipes ∧
      (handleGenerateRecipes sampleRosterState (.error "auth")).1.loading = false := by
  have h := handleGenerateRecipes_failure_frame sampleRosterState "auth" (by decide)
  exact ⟨h.1, h.2.2.2.2.1⟩

/-- C9: stopping the camera a second time in succession changes nothing,
and removing or priority-toggling an id matching no roster entry leaves
the whole state unchanged, from every starting state. -/
theorem stop_remove_toggle_idempotent (s : AppState) (id : String)
    (habs : ∀ i ∈ s.ingredients, i.id ≠ id) :
    stopCamera (stopCamera s) = stopCamera s ∧
      removeIngredient s id = s ∧
      togglePriority s id = s := by
  refine ⟨?_, ?_, ?_⟩
  · cases h : s.stream with
    | none => simp [stopCamera, h]
    | some k => simp [stopCamera, h]
  · have hfil : s.ingredients.filter (fun i => i.id != id) = s.ingredients :=
      filter_eq_self_of_true s.ingredients
        (fun i hi => bne_iff_ne.mpr (habs i hi))
    show { s with ingredients := s.ingredients.filter (fun i => i.id != id) } = s
    rw [hfil]
  · have hmap : s.ingredients.map (fun i =>
        if i.id = id then { i with isPriority := !i.isPriority } else i)
          = s.ingredients :=
      map_eq_self_of_fix s.ingredients
        (fun i hi => if_neg (habs i hi))
    show { s with ingredients := s.ingredients.map _ } = s
    rw [hmap]

/-- Witness for C9 at a concrete state with a bound stream and one entry,
against an id present in no entry. -/
theorem stop_remove_toggle_idempotent_witness :
    stopCamera (stopCamera { initState with
        ingredients := [{ id := "manual-3", name := "Pan", isPriority := false }],
        stream := some 1 })
      = stopCamera { initState with
        ingredients := [{ id := "manual-3", name := "Pan", isPriority := false }],
        stream := some 1 } ∧
    removeIngredient { initState with
        ingredients := [{ id := "manual-3", name := "Pan", isPriority := false }],
        stream := some 1 } "ing-0-0"
      = { initState with
        ingredients := [{ id := "manual-3", name := "Pan", isPriority := false }],
        stream := some 1 } ∧
    togglePriority { initState with
        ingredients := [{ id := "manual-3", name := "Pan", isPriority := false }],
        stream := some 1 } "ing-0-0"
      = { initState with
        ingredients := [{ id := "manual-3", name := "Pan", isPriority := false }],
        stream := some 1 } :=
  stop_remove_toggle_idempotent
    { initState with
      ingredients := [{ id := "manual-3", name := "Pan", isPriority := false }],
      stream := some 1 } "ing-0-0" (by decide)

/-- C10: when the trimmed pending text is non-empty, manual add appends
one entry storing the trimmed text (not the raw input) with priority
off, and clears the pending text field. -/
theorem addManualIngredient_stores_trimmed (s : AppState) (t : Nat)
    (h : trimJS s.newIngredientText ≠ "") :
    (addManualIngredient s t).ingredients
        = s.ingredients ++
          [{ id := manualId t, name := trimJS s.newIngredientText,
             isPriority := false }] ∧
      (addManualIngredient s t).newIngredientText = "" := by
  unfold addManualIngredient
  rw [if_neg h]
  exact ⟨rfl, rfl⟩

/-- Witness for C10 at a concrete padded input. -/
theorem addManualIngredient_stores_trimmed_witness :
    (addManualIngredient { initState with newIngredientText := "  tomate  " } 9).ingredients
        = ({ initState with newIngredientText := "  tomate  " } : AppState).ingredients
          ++ [{ id := manualId 9,
                name := trimJS ({ initState with
                  newIngredientText := "  tomate  " } : AppState).newIngredientText,
                isPriority := false }] ∧
      (addManualIngredient { initState with newIngredientText := "  tomate  " } 9).newIngredientText
        = "" :=
  addManualIngredient_stores_trimmed
    { initState with newIngredientText := "  tomate  " } 9 (by decide)

/-- C1 (amended): over every sequence of roster operations whose
id-creating steps read strictly increasing clock values, the ingredient
ids present in the roster remain pairwise distinct. -/
theorem roster_ids_pairwise_distinct (ops : List RosterOp)
    (h : timesOK 0 ops = true) :
    ((runOps initState ops).ingredients.map Ingredient.id).Nodup :=
  runOps_inv ops 0 initState (by simp [initState]) (freshIds_nil 0) h

/-- Witness for C1 on a run mixing all four operation kinds. -/
theorem roster_ids_pairwise_distinct_witness :
    timesOK 0 [RosterOp.detect 3 ["tomate", "queso"],
        RosterOp.manualAdd 7 "  sal  ", RosterOp.toggle "manual-7",
        RosterOp.remove "ing-3-0"] = true ∧
      ((runOps initState [RosterOp.detect 3 ["tomate", "queso"],
        RosterOp.manualAdd 7 "  sal  ", RosterOp.toggle "manual-7",
        RosterOp.remove "ing-3-0"]).ingredients.map Ingredient.id).Nodup :=
  ⟨by decide, roster_ids_pairwise_distinct
    [RosterOp.detect 3 ["tomate", "queso"],
      RosterOp.manualAdd 7 "  sal  ", RosterOp.toggle "manual-7",
      RosterOp.remove "ing-3-0"] (by decide)⟩

/-- C1 counterexample: two manual adds performed at the same clock
reading (the same millisecond) yield two roster entries sharing the id
manual-5, so id distinctness fails for this operation sequence. -/
theorem roster_ids_collide_at_equal_clock :
    ¬ ((runOps initState [RosterOp.manualAdd 5 "sal",
        RosterOp.manualAdd 5 "pan"]).ingredients.map Ingredient.id).Nodup := by
  decide

/-- C6 counterexample: with no active device handle (stream is none) but
a video element still holding a decoded frame with non-zero natural
dimensions, capture appends anyway — the code never consults the device
handle, so the claimed precondition does not govern the append. -/
theorem capturePhoto_appends_without_active_handle :
    initState.stream = none ∧
      (capturePhoto (some ⟨4, 640, 480, 0⟩) (some ⟨some ()⟩)
          initState).capturedImages ≠ initState.capturedImages :=
  ⟨rfl, by decide⟩

/-- C6 (amended): capture appends exactly one encoded still — at the
native resolution and the fixed quality factor — precisely when both
element refs are bound, the video reports HAVE_ENOUGH_DATA or a positive
natural width, and the 2d context is available; in every other case the
whole state, in particular the capture buffer, is exactly unchanged and
no error is raised.  The active-device-handle condition plays no role. -/
theorem capturePhoto_guard (video : VideoEl) (canvas : CanvasEl)
    (s : AppState) :
    ((video.readyState = HAVE_ENOUGH_DATA ∨ 0 < video.videoWidth) →
      canvas.ctx2d.isSome = true →
      (capturePhoto (some video) (some canvas) s).capturedImages
        = s.capturedImages ++
          [jpegBase64 video.videoWidth video.videoHeight video.frame
            captureQualityTenths]) ∧
    (¬ (video.readyState = HAVE_ENOUGH_DATA ∨ 0 < video.videoWidth) →
      capturePhoto (some video) (some canvas) s = s) ∧
    (canvas.ctx2d = none → capturePhoto (some video) (some canvas) s = s) ∧
    (∀ c, capturePhoto none c s = s) ∧
    (∀ v, capturePhoto v none s = s) := by
  refine ⟨?_, ?_, ?_, ?_, ?_⟩
  · intro h hc
    obtain ⟨u, hu⟩ := Option.isSome_iff_exists.mp hc
    show (match some video, some canvas with
      | some video, some canvas => _
      | _, _ => s).capturedImages = _
    simp only [capturePhoto, if_pos h, hu]
  · intro h
    simp only [capturePhoto, if_neg h]
  · intro h
    simp only [capturePhoto, h]
    split <;> rfl
  · intro c
    cases c <;> rfl
  · intro v
    cases v <;> rfl

/-- Witness for C6 at a concrete ready video element and live context. -/
theorem capturePhoto_guard_witness :
    (capturePhoto (some ⟨4, 320, 240, 7⟩) (some ⟨some ()⟩)
        initState).capturedImages
      = initState.capturedImages ++
        [jpegBase64 320 240 7 captureQualityTenths] :=
  (capturePhoto_guard ⟨4, 320, 240, 7⟩ ⟨some ()⟩ initState).1 (Or.inl rfl) rfl

/-- C7 counterexample: a detection response list containing the empty
string maps to a roster entry whose name is itself empty, refuting
non-emptiness over every response list the detection operation may
return. -/
theorem detectedBatch_empty_name :
    ¬ (∀ i ∈ detectedBatch 0 [""], i.name ≠ "") := by
  decide

/-- C7 (amended): every ingredient mapped from a detection batch whose
returned names are non-empty has a non-empty name whose leading
character is the uppercased first character of the detected name — and
that leading character is a fixed point of uppercasing, i.e.
capitalized. -/
theorem detectedBatch_capitalized (t : Nat) (names : List String)
    (hne : ∀ n ∈ names, n ≠ "") :
    ∀ i ∈ detectedBatch t names, i.name ≠ "" ∧
      ∃ (c : Char) (rest : List Char), i.name.data = c.toUpper :: rest ∧
        c.toUpper.toUpper = c.toUpper := by
  intro i hi
  obtain ⟨idx, name, _, hmem, rfl⟩ := mem_detectedBatch t names i hi
  have hn : name ≠ "" := hne name hmem
  cases hd : name.data with
  | nil =>
    exact absurd (by cases name; simp only at hd; simp [hd]) hn
  | cons c rest =>
    constructor
    · show capitalizeJS name ≠ ""
      simp only [capitalizeJS, hd]
      intro hcontra
      have := congrArg String.data hcontra
      simp at this
    · exact ⟨c, rest, by simp [capitalizeJS, hd], toUpper_toUpper c⟩

/-- Witness for C7 on the single-name batch mapping queso to Queso. -/
theorem detectedBatch_capitalized_witness :
    (Ingredient.mk "ing-2-0" "Queso" false).name ≠ "" ∧
      ∃ (c : Char) (rest : List Char),
        (Ingredient.mk "ing-2-0" "Queso" false).name.data = c.toUpper :: rest ∧
          c.toUpper.toUpper = c.toUpper :=
  detectedBatch_capitalized 2 ["queso"] (by decide)
    ⟨"ing-2-0", "Queso", false⟩ (by decide)

theorem filter_eq_nil_of_false {p : α → Bool} : ∀ l : List α,
    (∀ x ∈ l, p x = false) → l.filter p = [] := by
  intro l h
  induction l with
  | nil => rfl
  | cons a as ih =>
    rw [List.filter_cons, if_neg (by simp [h a (List.mem_cons_self a as)])]
    exact ih (fun x hx => h x (List.mem_cons_of_mem a hx))

/-- The character-level shape of the brief: the opening sentence with the
joined names, then the priority call-out exactly when the joined
priority names are non-empty, then the dietary constraint exactly when
the preference is not NONE, then the fixed closing paragraph. -/
theorem suggestRecipesPrompt_data (ingredients : List Ingredient)
    (preference : DietaryPreference) :
    (suggestRecipesPrompt ingredients preference).data =
      "Tengo estos ingredientes disponibles: ".data
        ++ ((rosterNames ingredients).data
        ++ (". ".data
        ++ ((if priorityNamesStr ingredients = "" then []
             else (priorityClause ingredients).data)
        ++ ((if preference = DietaryPreference.NONE then []
             else (dietClause preference).data)
        ++ suggestTail.data)))) := by
  by_cases h₁ : priorityNamesStr ingredients = "" <;>
    by_cases h₂ : preference = DietaryPreference.NONE <;>
      simp [suggestRecipesPrompt, h₁, h₂, data_append, List.append_assoc]

/-- C8: for every non-empty roster of validly named ingredients and
every preference, the brief contains every roster name; it contains the
priority call-out — listing exactly the joined priority-flagged names —
when at least one entry is flagged, and is built without that call-out
when none is; it contains the strict dietary-constraint sentence when
the preference is not NONE, and is built without it when it is; and it
asks for exactly 4 recipes while permitting the pantry staples without
counting them as missing. -/
theorem suggestRecipesPrompt_contents (ingredients : List Ingredient)
    (preference : DietaryPreference) (hne : ingredients ≠ [])
    (hnames : ∀ i ∈ ingredients, i.name ≠ "") :
    (∀ i ∈ ingredients,
      strHasSub (suggestRecipesPrompt ingredients preference) i.name) ∧
    ((∃ i ∈ ingredients, i.isPriority = true) →
      strHasSub (suggestRecipesPrompt ingredients preference)
        (priorityClause ingredients)) ∧
    ((∀ i ∈ ingredients, i.isPriority = false) →
      (suggestRecipesPrompt ingredients preference).data
        = "Tengo estos ingredientes disponibles: ".data
          ++ ((rosterNames ingredients).data
          ++ (". ".data
          ++ ((if preference = DietaryPreference.NONE then []
               else (dietClause preference).data)
          ++ suggestTail.data)))) ∧
    (preference ≠ DietaryPreference.NONE →
      strHasSub (suggestRecipesPrompt ingredients preference)
        (dietClause preference)) ∧
    (preference = DietaryPreference.NONE →
      (suggestRecipesPrompt ingredients preference).data
        = "Tengo estos ingredientes disponibles: ".data
          ++ ((rosterNames ingredients).data
          ++ (". ".data
          ++ ((if priorityNamesStr ingredients = "" then []
               else (priorityClause ingredients).data)
          ++ suggestTail.data)))) ∧
    strHasSub (suggestRecipesPrompt ingredients preference)
      "Sugiere 4 recetas" ∧
    strHasSub (suggestRecipesPrompt ingredients preference)
      "(sal, aceite, pimienta, agua) sin listarlos como \"faltantes\"" := by
  have hdata := suggestRecipesPrompt_data ingredients preference
  refine ⟨?_, ?_, ?_, ?_, ?_, ?_, ?_⟩
  · intro i hi
    obtain ⟨pre, post, hjoin⟩ := joinSep_mem_decomp ", "
      (ingredients.map (fun i => i.name)) i.name
      (List.mem_map_of_mem (fun i => i.name) hi)
    have hjoin' : (rosterNames ingredients).data = pre ++ i.name.data ++ post :=
      hjoin
    show hasSubL i.name.data (suggestRecipesPrompt ingredients preference).data
      = true
    rw [hdata]
    apply hasSubL_append_left
    rw [hjoin', List.append_assoc, List.append_assoc]
    apply hasSubL_of_decomp
  · intro ⟨i, hi, hpri⟩
    have hfil : i ∈ ingredients.filter (fun i => i.isPriority) :=
      List.mem_filter.mpr ⟨hi, hpri⟩
    have h₁ : priorityNamesStr ingredients ≠ "" := by
      refine joinSep_ne_empty ", " _
        (List.ne_nil_of_mem (List.mem_map_of_mem (fun i => i.name) hfil)) ?_
      intro x hx
      obtain ⟨j, hj, rfl⟩ := List.mem_map.mp hx
      exact hnames j (List.mem_of_mem_filter hj)
    show hasSubL (priorityClause ingredients).data
      (suggestRecipesPrompt ingredients preference).data = true
    rw [hdata, if_neg h₁]
    apply hasSubL_append_left
    apply hasSubL_append_left
    apply hasSubL_append_left
    exact hasSubL_of_decomp (priorityClause ingredients).data [] _
  · intro hflags
    have hfil : ingredients.filter (fun i => i.isPriority) = [] :=
      filter_eq_nil_of_false ingredients (fun x hx => hflags x hx)
    have h₁ : priorityNamesStr ingredients = "" := by
      rw [priorityNamesStr, hfil]
      rfl
    rw [hdata, if_pos h₁]
    rfl
  · intro h₂
    show hasSubL (dietClause preference).data
      (suggestRecipesPrompt ingredients preference).data = true
    rw [hdata, if_neg h₂]
    apply hasSubL_append_left
    apply hasSubL_append_left
    apply hasSubL_append_left
    by_cases h₁ : priorityNamesStr ingredients = ""
    · rw [if_pos h₁]
      exact hasSubL_of_decomp (dietClause preference).data [] _
    · rw [if_neg h₁]
      apply hasSubL_append_left
      exact hasSubL_of_decomp (dietClause preference).data [] _
  · intro h₂
    rw [hdata, if_pos h₂]
    rfl
  · show hasSubL ("Sugiere 4 recetas" : String).data
      (suggestRecipesPrompt ingredients preference).data = true
    rw [hdata]
    apply hasSubL_append_left
    apply hasSubL_append_left
    apply hasSubL_append_left
    apply hasSubL_append_left
    apply hasSubL_append_left
    decide
  · show hasSubL
      ("(sal, aceite, pimienta, agua) sin listarlos como \"faltantes\"" : String).data
      (suggestRecipesPrompt ingredients preference).data = true
    rw [hdata]
    apply hasSubL_append_left
    apply hasSubL_append_left
    apply hasSubL_append_left
    apply hasSubL_append_left
    apply hasSubL_append_left
    decide

/-- Witness for C8, the third spec scenario: a one-entry roster named
Queso with the vegan preference yields a brief containing Queso and the
strict vegan constraint sentence. -/
theorem suggestRecipesPrompt_contents_witness :
    strHasSub (suggestRecipesPrompt
        [{ id := "manual-1", name := "Queso", isPriority := false }]
        DietaryPreference.VEGAN) "Queso" ∧
      strHasSub (suggestRecipesPrompt
        [{ id := "manual-1", name := "Queso", isPriority := false }]
        DietaryPreference.VEGAN) (dietClause DietaryPreference.VEGAN) := by
  have h := suggestRecipesPrompt_contents
    [{ id := "manual-1", name := "Queso", isPriority := false }]
    DietaryPreference.VEGAN (by decide) (by decide)
  exact ⟨h.1 { id := "manual-1", name := "Queso", isPriority := false }
    (by decide), h.2.2.2.1 (by decide)⟩

end EcoChef
